import Mathlib

/-
Verification of the crawl engine of `command_line_scraper.py` and the
percentage-change helpers of `fetch_monthly_metrics.py`.

The Python functions are shallowly embedded as Lean functions.  Effects of
the outside world (HTTP responses, HTML parsing, regex matching, URL
parsing, the OpenAI endpoint) are supplied by a `World` record of oracle
functions; an operation that can raise a Python exception is modelled as a
function into `Except String _`, and a `try/except` block in the source
becomes a `match` on that result.  Python `int` is modelled as `Int`,
Python strings as `String` (one `Char` per code point), Python lists and
sets as `List` (a set is a duplicate-free list in first-insertion order,
matching a single deterministic iteration order of the Python set).
-/

/-- Result of `urllib.parse.urlparse`: the components the scraper reads. -/
structure ParsedURL where
  scheme : String
  netloc : String
deriving DecidableEq, Repr

/-- The metadata dictionary built by `extract_metadata` (string keyed). -/
def MetaD := List (String × String)
deriving DecidableEq

/-- The value stored under `"summary"` in the `ai_analysis` dict of a
`ScrapeResult`: `none_` for Python `None`, `ok` for a parsed JSON object
(abstracted to its text), `err` for the error-describing dict built in the
`except` branch of `perform_ai_analysis`. -/
inductive AISummary where
  | none_ : AISummary
  | ok : String → AISummary
  | err : String → AISummary
deriving DecidableEq, Repr

/-- Pydantic model `ScrapePageOptions`. -/
structure ScrapePageOptions where
  ai_analysis : Bool := false
  ai_prompt : Option String := some "Summarize this content in 3 bullet points."
  client_summary : Option (List String) := none
deriving DecidableEq, Repr

/-- Pydantic model `CrawlerOptions` (`delay_seconds` only feeds `time.sleep`
and is irrelevant to every observable modelled here, so it is dropped). -/
structure CrawlerOptions where
  max_pages : Int := 20
  max_depth : Int := 3
  same_domain_only : Bool := true
  respect_robots : Bool := true
  include_patterns : Option (List String) := none
  exclude_patterns : List String := []
deriving DecidableEq, Repr

/-- Pydantic model `ScrapeResult`.  The `ai_analysis` dict, when present,
always has exactly the keys `"summary"` and `"model_used"`, so it is
modelled as the pair (summary, model_used). -/
structure ScrapeResult where
  url : String
  status : String
  markdown : Option String := none
  metadata : MetaD := []
  ai_analysis : Option (AISummary × String) := none
  error : Option String := none
deriving DecidableEq

/-- Pydantic model `CrawlResponse`. -/
structure CrawlResponse where
  status : String
  start_url : String
  total_pages_crawled : Int
  results : List ScrapeResult
deriving DecidableEq

/-- The oracles supplying every outside-world effect of one crawl run.
`fetch` answers the `make_resilient_request` call inside `scrape_url`;
`fetch2` answers the second `make_resilient_request` call in the
link-extraction block of `crawl_website` (the source really performs two
separate network round trips, which may disagree).  An `Except.error`
models the call raising a Python exception with that message. -/
structure World where
  urlparse : String → Except String ParsedURL
  urljoin : String → String → String
  fetch : String → Except String String
  fetch2 : String → Except String String
  h2t : String → Except String String
  extract_metadata : String → Except String MetaD
  hrefs : String → List String
  regex_search_i : String → String → Bool
  pyformat : String → String → String → Except String String
  openai_api_key : Option String
  chat : String → Except String String

/-- Python `s[:n]` on a string: the first `n` code points. -/
def pyslice (s : String) (n : Nat) : String := ⟨s.data.take n⟩

/-- First component of `urllib.parse.urldefrag`: everything before the
first `'#'` (the whole string when there is none). -/
def urldefrag0 (s : String) : String := ⟨s.data.takeWhile (· ≠ '#')⟩

/-- Python whitespace test, for `str.strip()`. -/
def isPySpace (c : Char) : Bool :=
  c = ' ' ∨ c = '\t' ∨ c = '\n' ∨ c = '\r' ∨ c = '\x0b' ∨ c = '\x0c'

/-- Python `s.strip()`: drop whitespace from both ends. -/
def pystrip (s : String) : String :=
  ⟨((s.data.dropWhile isPySpace).reverse.dropWhile isPySpace).reverse⟩

/-- Python set: keep the first occurrence of each element, in order. -/
def setList (l : List String) : List String :=
  l.foldl (fun acc x => if x ∈ acc then acc else acc ++ [x]) []

/-- `html_to_markdown`: the empty-input guard, then the `html2text` call
(an oracle, since the library may in principle raise). -/
def html_to_markdown (w : World) (html_content : String) : Except String String :=
  if html_content = "" then .ok "" else w.h2t html_content

/-- `extract_links(soup, base_url)`: every non-empty stripped `href`,
resolved against `base_url` and fragment-stripped, collected into a set. -/
def extract_links (w : World) (soupHtml : String) (base_url : String) : List String :=
  setList ((((w.hrefs soupHtml).map pystrip).filter (fun h => h ≠ "")).map
    (fun href => urldefrag0 (w.urljoin base_url href)))

/-- `is_valid_url(url, options, base_domain)`.  The `try/except` of the
source is the match on `w.urlparse`; each `return False` is a branch. -/
def is_valid_url (w : World) (url : String) (options : CrawlerOptions)
    (base_domain : String) : Bool :=
  match w.urlparse url with
  | .error _ => false
  | .ok parsed_url =>
    if ¬ (parsed_url.scheme = "http" ∨ parsed_url.scheme = "https") then false
    else if options.same_domain_only ∧ parsed_url.netloc ≠ base_domain then false
    else if options.exclude_patterns ≠ [] ∧
        options.exclude_patterns.any (fun p => w.regex_search_i p url) then false
    else if (match options.include_patterns with
             | none => false
             | some ps => !ps.isEmpty && !(ps.any (fun p => w.regex_search_i p url))) then false
    else true

/-- `perform_ai_analysis(page_content, prompt)`: missing key returns the
degraded pair at once; otherwise one chat call on the message assembled
from the prompt and the first 8000 characters of the content, with every
failure converted to the error-describing pair. -/
def perform_ai_analysis (w : World) (page_content : String) (prompt : String) :
    AISummary × String :=
  match w.openai_api_key with
  | none => (AISummary.none_, "N/A")
  | some _ =>
    match w.chat (prompt ++ "\n\n---\n\nCONTENT:\n" ++ pyslice page_content 8000) with
    | .ok parsed => (AISummary.ok parsed, "gpt-4o")
    | .error e => (AISummary.err ("AI analysis failed: " ++ e), "N/A")

/-- `options.ai_prompt.format(client_summary=..., page_content=...)`:
`None.format` raises `AttributeError`; on a string the substitution is an
oracle (it may raise `KeyError`/`ValueError` for a malformed template). -/
def format_ai_prompt (w : World) (options : ScrapePageOptions)
    (markdown_content : String) : Except String String :=
  match options.ai_prompt with
  | none => .error "AttributeError: NoneType has no attribute format"
  | some t =>
    w.pyformat t
      (String.intercalate ", "
        (match options.client_summary with
         | none => ["Not provided"]
         | some [] => ["Not provided"]
         | some l => l))
      (pyslice markdown_content 4000)

/-- `scrape_url(url, options)`: the whole body is one `try`; any failure
(fetch, markdown conversion, metadata extraction, prompt formatting)
produces the `status="error"` result carrying the exception text.  A
success result always carries the `ai_analysis` dict built from the
(`summary`, `model_used`) pair — (`None`, `"N/A"`) when analysis was not
requested. -/
def scrape_url (w : World) (url : String) (options : ScrapePageOptions) : ScrapeResult :=
  match
    (match w.fetch url with
     | .error e => .error e
     | .ok html_content =>
       match html_to_markdown w html_content with
       | .error e => .error e
       | .ok markdown_content =>
         match w.extract_metadata html_content with
         | .error e => .error e
         | .ok metadata =>
           if options.ai_analysis then
             match format_ai_prompt w options markdown_content with
             | .error e => .error e
             | .ok prompt =>
               let pair := perform_ai_analysis w markdown_content prompt
               .ok { url := url, status := "success", markdown := some markdown_content,
                     metadata := metadata, ai_analysis := some pair, error := none }
           else
             .ok { url := url, status := "success", markdown := some markdown_content,
                   metadata := metadata, ai_analysis := some (AISummary.none_, "N/A"),
                   error := none } : Except String ScrapeResult)
  with
  | .ok r => r
  | .error e => { url := url, status := "error", markdown := none, metadata := [],
                  ai_analysis := none, error := some e }

/-- Events recording the observable actions of one crawl loop, in order:
`result` — an entry was dequeued within the depth bound, scraped, and its
result appended; `discarded` — an entry beyond the depth bound was dequeued
and dropped; `linkstep` — the link-extraction block was entered for the
just-scraped page; `enqueued` — a discovered link passed the visited test
and the filter and was appended to the frontier, with its parent page. -/
inductive Ev where
  | result : String → Int → ScrapeResult → Ev
  | discarded : String → Int → Ev
  | linkstep : String → Int → Ev
  | enqueued : String → Int → String → Ev
deriving DecidableEq

/-- The mutable state of `crawl_website`: the frontier `queue`, the
`visited_urls` set (insertion order), the `scraped_results` list, and the
event trace. -/
structure CrawlState where
  queue : List (String × Int)
  visited : List String
  results : List ScrapeResult
  trace : List Ev
deriving DecidableEq

/-- The `for link in new_links` loop body: untouched state unless the link
is unvisited and valid, in which case it joins `visited_urls` and the
frontier at depth `current_depth + 1`. -/
def enqueue_links (w : World) (co : CrawlerOptions) (base_domain : String)
    (current_url : String) (current_depth : Int) (links : List String)
    (st : CrawlState) : CrawlState :=
  links.foldl (fun acc link =>
    if link ∉ acc.visited ∧ is_valid_url w link co base_domain then
      { acc with
        visited := acc.visited ++ [link],
        queue := acc.queue ++ [(link, current_depth + 1)],
        trace := acc.trace ++ [Ev.enqueued link (current_depth + 1) current_url] }
    else acc) st

/-- The `try` block extracting and enqueuing links: a second fetch of the
same page; on any failure the state is left unchanged (zero new links). -/
def link_step (w : World) (co : CrawlerOptions) (base_domain : String)
    (current_url : String) (current_depth : Int) (st : CrawlState) : CrawlState :=
  match w.fetch2 current_url with
  | .error _ => st
  | .ok html => enqueue_links w co base_domain current_url current_depth
      (extract_links w html current_url) st

/-- One non-discarded iteration of the crawl loop: scrape, append the
result, and when the page succeeded strictly below `max_depth`, run the
link-extraction block. -/
def process_page (w : World) (co : CrawlerOptions) (po : ScrapePageOptions)
    (base_domain : String) (current_url : String) (current_depth : Int)
    (rest : List (String × Int)) (v : List String) (rs : List ScrapeResult)
    (tr : List Ev) : CrawlState :=
  let sr := scrape_url w current_url po
  let st1 : CrawlState :=
    ⟨rest, v, rs ++ [sr], tr ++ [Ev.result current_url current_depth sr]⟩
  if sr.status = "success" ∧ current_depth < co.max_depth then
    link_step w co base_domain current_url current_depth
      { st1 with trace := st1.trace ++ [Ev.linkstep current_url current_depth] }
  else st1

/-- The `while queue and len(scraped_results) < max_pages` loop of
`crawl_website`, on the four state components. -/
def crawl_loop (w : World) (co : CrawlerOptions) (po : ScrapePageOptions)
    (base_domain : String) :
    List (String × Int) → List String → List ScrapeResult → List Ev → CrawlState
  | [], v, rs, tr => ⟨[], v, rs, tr⟩
  | (current_url, current_depth) :: rest, v, rs, tr =>
    if (rs.length : Int) < co.max_pages then
      if current_depth > co.max_depth then
        crawl_loop w co po base_domain rest v rs
          (tr ++ [Ev.discarded current_url current_depth])
      else
        let st2 := process_page w co po base_domain current_url current_depth rest v rs tr
        crawl_loop w co po base_domain st2.queue st2.visited st2.results st2.trace
    else ⟨(current_url, current_depth) :: rest, v, rs, tr⟩
  termination_by q _ rs _ => ((co.max_pages - rs.length).toNat, q.length)
  decreasing_by
  · apply Prod.Lex.right; simp
  · apply Prod.Lex.left
    have h1 : ∀ (links : List String) (st : CrawlState),
        (enqueue_links w co base_domain current_url current_depth links st).results =
          st.results := by
      intro links
      induction links with
      | nil => exact fun st => rfl
      | cons a l ih =>
        intro st
        simp only [enqueue_links, List.foldl_cons] at ih ⊢
        split <;> exact ih _
    have h2 : (process_page w co po base_domain current_url current_depth rest v
        rs tr).results = rs ++ [scrape_url w current_url po] := by
      simp only [process_page]
      split
      · unfold link_step
        split
        · rfl
        · exact h1 _ _
      · rfl
    simp only [h2, List.length_append, List.length_cons, List.length_nil]
    omega

/-- `crawl_website(start_url, crawl_options, page_options)` down to its
final loop state; an exception from the initial `urlparse` propagates. -/
def crawl_run (w : World) (start_url : String) (crawl_options : CrawlerOptions)
    (page_options : ScrapePageOptions) : Except String CrawlState :=
  match w.urlparse start_url with
  | .error e => .error e
  | .ok p =>
    .ok (crawl_loop w crawl_options page_options p.netloc
          [(start_url, 0)] [start_url] [] [])

/-- `crawl_website`: the `CrawlResponse` built from the final state. -/
def crawl_website (w : World) (start_url : String) (crawl_options : CrawlerOptions)
    (page_options : ScrapePageOptions) : Except String CrawlResponse :=
  (crawl_run w start_url crawl_options page_options).map fun st =>
    { status := "completed", start_url := start_url,
      total_pages_crawled := st.results.length, results := st.results }

/-- The results carried by the `result` events of a trace, in order. -/
def resultsOfTrace (tr : List Ev) : List ScrapeResult :=
  tr.filterMap fun e => match e with | .result _ _ r => some r | _ => none

/-- Depths of all dequeued entries (processed or discarded), in order. -/
def deqDepths (tr : List Ev) : List Int :=
  tr.filterMap fun e => match e with
    | .result _ d _ => some d
    | .discarded _ d => some d
    | _ => none

/-- Depths of the processed (result-producing) entries, in order. -/
def resultDepths (tr : List Ev) : List Int :=
  tr.filterMap fun e => match e with | .result _ d _ => some d | _ => none

/-- URLs ever appended to the frontier by the link loop, in order. -/
def enqueuedUrls (tr : List Ev) : List String :=
  tr.filterMap fun e => match e with | .enqueued u _ _ => some u | _ => none

-- ---------- fetch_monthly_metrics.py ----------

/-- Round to the nearest integer, ties to the even integer (the rounding
of Python's builtin `round`). -/
def roundHalfEven (q : ℚ) : ℤ :=
  if q - ⌊q⌋ < 1/2 then ⌊q⌋
  else if q - ⌊q⌋ > 1/2 then ⌊q⌋ + 1
  else if ⌊q⌋ % 2 = 0 then ⌊q⌋ else ⌊q⌋ + 1

/-- Python `round(x, 2)` on exact rationals. -/
def pyround2 (q : ℚ) : ℚ := (roundHalfEven (q * 100) : ℚ) / 100

/-- `pct_change(curr, prev)` of `fetch_monthly_metrics.py` (numbers
modelled as exact rationals). -/
def pct_change (curr prev : ℚ) : Option ℚ :=
  if prev = 0 then none
  else some (pyround2 ((curr - prev) / prev * 100))

/-- `pct_change_safe(curr, prev)` of `fetch_monthly_metrics.py`: `prev` may
additionally be `None`. -/
def pct_change_safe (curr : ℚ) (prev : Option ℚ) : Option ℚ :=
  match prev with
  | none => none
  | some p =>
    if p = 0 then none
    else some (pyround2 ((curr - p) / p * 100))

-- ---------- Resilient fetcher retry model ----------

/-- One HTTP attempt as seen by the retry stack: a connection-level failure
(DNS, timeout, refused) or a response with an HTTP status code and body
text. -/
inductive Attempt where
  | connError : String → Attempt
  | response : Nat → String → Attempt
deriving DecidableEq, Repr

/-- The `status_forcelist` configured in `make_resilient_request`. -/
def retryable_statuses : List Nat := [429, 500, 502, 503, 504]

/-- An attempt outcome that the retry policy retries: a connection-level
failure or a forcelisted status. -/
def retryable (a : Attempt) : Bool :=
  match a with
  | .connError _ => true
  | .response s _ => s ∈ retryable_statuses

/-- `response.raise_for_status()` followed by returning the response: a
non-2xx status becomes a failure carrying the status and text. -/
def raise_for_status (s : Nat) (text : String) : Except String (Nat × String) :=
  if 200 ≤ s ∧ s < 300 then .ok (s, text)
  else .error ("HTTP " ++ toString s ++ ": " ++ text)

/-- Surfacing the outcome of a final (non-retried) attempt. -/
def surface (a : Attempt) : Except String (Nat × String) :=
  match a with
  | .connError m => .error m
  | .response s t => raise_for_status s t

/-- What one call of `make_resilient_request` did: its result (response or
failure message), how many HTTP attempts it made, and the sleeps (in
seconds) it performed between attempts. -/
structure FetchOutcome where
  result : Except String (Nat × String)
  attempts : Nat
  delays : List Nat
deriving Repr

/-- Modelled from the spec: the retry loop of `make_resilient_request` is
implemented by the third-party HTTP stack (`urllib3.util.retry.Retry`
driven through a `requests.Session` adapter), which is not part of this
repository; the source only configures it (`Retry(total=3, backoff_factor=1,
status_forcelist=[429, 500, 502, 503, 504])`) and calls
`raise_for_status()` on the response.  Following §4.2 of the spec: up to 3
total attempts; an attempt is retried exactly when it fails at connection
level or returns a forcelisted status; the delay before retry number k is
`backoff_factor * 2^(k-1)` seconds (so 1s then 2s); exhaustion or a
non-retryable outcome surfaces the last attempt.  `oracle n` is the
outcome of attempt number `n + 1`; `k` counts the attempts still allowed.
-/
def resilient_go (oracle : Nat → Attempt) : Nat → Nat → List Nat → FetchOutcome
  | 0, made, delays => ⟨.error "retries exhausted", made, delays⟩
  | k + 1, made, delays =>
    if retryable (oracle made) ∧ k ≠ 0 then
      resilient_go oracle k (made + 1) (delays ++ [2 ^ made])
    else
      ⟨surface (oracle made), made + 1, delays⟩

/-- Modelled from the spec: `make_resilient_request(url)` under the attempt
oracle — see `resilient_go`. -/
def make_resilient_request (oracle : Nat → Attempt) : FetchOutcome :=
  resilient_go oracle 3 0 []

-- ---------- Concrete worlds used as witnesses ----------

/-- Default (CLI) page options: no AI analysis. -/
def po0 : ScrapePageOptions := {}

/-- Page options with `--ai-analysis`. -/
def poAI : ScrapePageOptions := { ai_analysis := true }

/-- Default crawler options. -/
def co0 : CrawlerOptions := {}

/-- A world in which every fetch fails at connection level and no OpenAI
key is configured. -/
def W0 : World :=
  { urlparse := fun _ => .ok ⟨"http", "a.com"⟩
    urljoin := fun _ href => href
    fetch := fun _ => .error "connection refused"
    fetch2 := fun _ => .error "connection refused"
    h2t := fun h => .ok h
    extract_metadata := fun _ => .ok []
    hrefs := fun _ => []
    regex_search_i := fun _ _ => false
    pyformat := fun t _ _ => .ok t
    openai_api_key := none
    chat := fun _ => .error "offline" }

/-- A world in which the page at the fragment-carrying seed URL links to
the same page under a different fragment. -/
def W2 : World :=
  { W0 with
    fetch := fun u => if u = "http://a.com/p#f" then .ok "H1" else .error "down"
    fetch2 := fun _ => .ok "H1"
    hrefs := fun h => if h = "H1" then ["http://a.com/p#g"] else [] }

/-- A world with a single page that fetches successfully and has no links.
-/
def W7 : World :=
  { W0 with fetch := fun _ => .ok "H", fetch2 := fun _ => .ok "H" }

/-- The page result of the failing fetch in `W0`. -/
def SR0 : ScrapeResult := ⟨"http://a.com/", "error", none, [], none, some "connection refused"⟩

/-- The final crawl state of `W0` from seed `http://a.com/`. -/
def ST0 : CrawlState := ⟨[], ["http://a.com/"], [SR0], [Ev.result "http://a.com/" 0 SR0]⟩

/-- The seed-page result in `W2`. -/
def SR2a : ScrapeResult :=
  ⟨"http://a.com/p#f", "success", some "H1", [], some (AISummary.none_, "N/A"), none⟩

/-- The result of the re-discovered (fragment-stripped) page in `W2`. -/
def SR2b : ScrapeResult := ⟨"http://a.com/p", "error", none, [], none, some "down"⟩

/-- The final crawl state of `W2` from seed `http://a.com/p#f`. -/
def ST2 : CrawlState :=
  ⟨[], ["http://a.com/p#f", "http://a.com/p"], [SR2a, SR2b],
   [Ev.result "http://a.com/p#f" 0 SR2a, Ev.linkstep "http://a.com/p#f" 0,
    Ev.enqueued "http://a.com/p" 1 "http://a.com/p#f",
    Ev.result "http://a.com/p" 1 SR2b]⟩

/-- The single successful page result in `W7`. -/
def SR7 : ScrapeResult :=
  ⟨"http://a.com/", "success", some "H", [], some (AISummary.none_, "N/A"), none⟩

/-- An attempt oracle: attempt 1 gets HTTP 500, later attempts get 200. -/
def OR1 : Nat → Attempt :=
  fun n => if n = 0 then Attempt.response 500 "ISE" else Attempt.response 200 "OK"

/-- The final crawl state of `W7` from seed `http://a.com/` with the
default options (link step runs and finds nothing). -/
def ST7 : CrawlState :=
  ⟨[], ["http://a.com/"], [SR7],
   [Ev.result "http://a.com/" 0 SR7, Ev.linkstep "http://a.com/" 0]⟩

/-- Crawler options with `max_depth = 0`. -/
def coD0 : CrawlerOptions := { max_depth := 0 }

/-- The final crawl state of `W7` with `max_depth = 0` (no link step). -/
def ST7d : CrawlState :=
  ⟨[], ["http://a.com/"], [SR7], [Ev.result "http://a.com/" 0 SR7]⟩

/-- The loop invariant of `crawl_website`, tying the frontier, the visited
set, the results and the trace together.  `s` is the start URL. -/
structure CrawlInv (s : String) (co : CrawlerOptions) (st : CrawlState) : Prop where
  qv : ∀ p ∈ st.queue, p.1 ∈ st.visited
  rv : ∀ u d r, Ev.result u d r ∈ st.trace → u ∈ st.visited
  vis : st.visited = s :: enqueuedUrls st.trace
  nodup : st.visited.Nodup
  spl : ∀ t1 c dc p t2, st.trace = t1 ++ Ev.enqueued c dc p :: t2 →
          (∃ r, Ev.result p (dc - 1) r ∈ t1) ∧ ∀ d' r', Ev.result c d' r' ∉ t1
  sorted : List.Pairwise (· ≤ ·) (deqDepths st.trace ++ st.queue.map Prod.snd)
  close : ∀ a ∈ st.queue, ∀ b ∈ st.queue, a.2 ≤ b.2 + 1
  resOk : ∀ u d r, Ev.result u d r ∈ st.trace →
            0 ≤ d ∧ d ≤ co.max_depth ∧ (d = 0 → u = s)
  disOk : ∀ u d, Ev.discarded u d ∈ st.trace → co.max_depth < d
  lsOk : ∀ u d, Ev.linkstep u d ∈ st.trace → 0 ≤ d ∧ d < co.max_depth
  enqOk : ∀ c dc p, Ev.enqueued c dc p ∈ st.trace →
            1 ≤ dc ∧ dc ≤ co.max_depth ∧ urldefrag0 c = c
  qd : ∀ p ∈ st.queue, 0 ≤ p.2 ∧ (p.2 = 0 → p.1 = s)
  budget : 0 ≤ co.max_pages → (st.results.length : Int) ≤ co.max_pages
  resTr : st.results = resultsOfTrace st.trace

/-- The invariant holding while the `for link in new_links` loop of the
iteration for page `u` at depth `d` is running. -/
structure MidInv (s : String) (co : CrawlerOptions) (u : String) (d : Int)
    (st : CrawlState) extends CrawlInv s co st : Prop where
  parent : ∃ r, Ev.result u d r ∈ st.trace
  ub : ∀ x ∈ deqDepths st.trace ++ st.queue.map Prod.snd, x ≤ d + 1
  lb : ∀ x ∈ st.queue.map Prod.snd, d ≤ x

-- ---------- Generic helper lemmas ----------

theorem enqueue_links_results (w : World) (co : CrawlerOptions) (bd u : String)
    (d : Int) (links : List String) (st : CrawlState) :
    (enqueue_links w co bd u d links st).results = st.results := by
  induction links generalizing st with
  | nil => rfl
  | cons x xs ih =>
    simp only [enqueue_links, List.foldl_cons] at ih ⊢
    split <;> exact ih _

theorem link_step_results (w : World) (co : CrawlerOptions) (bd u : String)
    (d : Int) (st : CrawlState) :
    (link_step w co bd u d st).results = st.results := by
  unfold link_step
  split
  · rfl
  · exact enqueue_links_results ..

theorem process_page_results (w : World) (co : CrawlerOptions)
    (po : ScrapePageOptions) (bd u : String) (d : Int) (rest : List (String × Int))
    (v : List String) (rs : List ScrapeResult) (tr : List Ev) :
    (process_page w co po bd u d rest v rs tr).results = rs ++ [scrape_url w u po] := by
  simp only [process_page]
  split
  · rw [link_step_results]
  · rfl

theorem resultsOfTrace_append (t1 t2 : List Ev) :
    resultsOfTrace (t1 ++ t2) = resultsOfTrace t1 ++ resultsOfTrace t2 :=
  List.filterMap_append ..

theorem deqDepths_append (t1 t2 : List Ev) :
    deqDepths (t1 ++ t2) = deqDepths t1 ++ deqDepths t2 :=
  List.filterMap_append ..

theorem resultDepths_append (t1 t2 : List Ev) :
    resultDepths (t1 ++ t2) = resultDepths t1 ++ resultDepths t2 :=
  List.filterMap_append ..

theorem enqueuedUrls_append (t1 t2 : List Ev) :
    enqueuedUrls (t1 ++ t2) = enqueuedUrls t1 ++ enqueuedUrls t2 :=
  List.filterMap_append ..

theorem append_singleton_cases {α} {l t1 t2 : List α} {x e : α}
    (h : l ++ [e] = t1 ++ x :: t2) :
    (t1 = l ∧ x = e ∧ t2 = []) ∨ ∃ t2', l = t1 ++ x :: t2' ∧ t2 = t2' ++ [e] := by
  rcases t2.eq_nil_or_concat with h2 | ⟨t2', a, h2⟩
  · subst h2
    obtain ⟨h3, h4⟩ := List.append_inj' h rfl
    exact Or.inl ⟨h3.symm, (List.cons.injEq .. ▸ h4).1.symm, rfl⟩
  · subst h2
    rw [List.concat_eq_append,
      show t1 ++ x :: (t2' ++ [a]) = (t1 ++ x :: t2') ++ [a] by simp] at h
    obtain ⟨h3, h4⟩ := List.append_inj' h rfl
    refine Or.inr ⟨t2', h3, ?_⟩
    rw [List.concat_eq_append, show a = e from ((List.cons.injEq ..).mp h4).1.symm]

theorem takeWhile_idem {p : Char → Bool} (l : List Char) :
    (l.takeWhile p).takeWhile p = l.takeWhile p := by
  induction l with
  | nil => rfl
  | cons a l ih =>
    by_cases hp : p a
    · simp [List.takeWhile_cons, hp, ih]
    · simp [List.takeWhile_cons, hp]

theorem urldefrag0_idem (s : String) : urldefrag0 (urldefrag0 s) = urldefrag0 s := by
  simp [urldefrag0, takeWhile_idem]

theorem foldl_insert_mem {x : String} : ∀ (l acc : List String),
    x ∈ l.foldl (fun acc y => if y ∈ acc then acc else acc ++ [y]) acc →
    x ∈ acc ∨ x ∈ l := by
  intro l
  induction l with
  | nil => exact fun acc h => Or.inl h
  | cons a l ih =>
    intro acc h
    simp only [List.foldl_cons] at h
    rcases ih _ h with h' | h'
    · split at h'
      · exact Or.inl h'
      · rcases List.mem_append.1 h' with h'' | h''
        · exact Or.inl h''
        · simp only [List.mem_singleton] at h''
          exact Or.inr (by simp [h''])
    · exact Or.inr (List.mem_cons_of_mem _ h')

theorem setList_subset {x : String} {l : List String} (h : x ∈ setList l) : x ∈ l :=
  ((foldl_insert_mem l [] h).resolve_left (by simp))

theorem extract_links_defrag (w : World) (html base : String) :
    ∀ l ∈ extract_links w html base, urldefrag0 l = l := by
  intro l hl
  have := setList_subset hl
  simp only [List.mem_map] at this
  obtain ⟨href, _, rfl⟩ := this
  exact urldefrag0_idem _

-- ---------- The crawl-loop invariant ----------

theorem CrawlInv.init (s : String) (co : CrawlerOptions) :
    CrawlInv s co ⟨[(s, 0)], [s], [], []⟩ := by
  constructor <;> simp [deqDepths, resultsOfTrace, enqueuedUrls]

@[simp] theorem resultsOfTrace_nil : resultsOfTrace [] = [] := rfl

@[simp] theorem resultsOfTrace_one_result (u : String) (d : Int) (r : ScrapeResult) :
    resultsOfTrace [Ev.result u d r] = [r] := rfl

@[simp] theorem resultsOfTrace_one_discarded (u : String) (d : Int) :
    resultsOfTrace [Ev.discarded u d] = [] := rfl

@[simp] theorem resultsOfTrace_one_linkstep (u : String) (d : Int) :
    resultsOfTrace [Ev.linkstep u d] = [] := rfl

@[simp] theorem resultsOfTrace_one_enqueued (c : String) (dc : Int) (p : String) :
    resultsOfTrace [Ev.enqueued c dc p] = [] := rfl

@[simp] theorem deqDepths_nil : deqDepths [] = [] := rfl

@[simp] theorem deqDepths_one_result (u : String) (d : Int) (r : ScrapeResult) :
    deqDepths [Ev.result u d r] = [d] := rfl

@[simp] theorem deqDepths_one_discarded (u : String) (d : Int) :
    deqDepths [Ev.discarded u d] = [d] := rfl

@[simp] theorem deqDepths_one_linkstep (u : String) (d : Int) :
    deqDepths [Ev.linkstep u d] = [] := rfl

@[simp] theorem deqDepths_one_enqueued (c : String) (dc : Int) (p : String) :
    deqDepths [Ev.enqueued c dc p] = [] := rfl

@[simp] theorem resultDepths_nil : resultDepths [] = [] := rfl

@[simp] theorem resultDepths_one_result (u : String) (d : Int) (r : ScrapeResult) :
    resultDepths [Ev.result u d r] = [d] := rfl

@[simp] theorem resultDepths_one_discarded (u : String) (d : Int) :
    resultDepths [Ev.discarded u d] = [] := rfl

@[simp] theorem resultDepths_one_linkstep (u : String) (d : Int) :
    resultDepths [Ev.linkstep u d] = [] := rfl

@[simp] theorem resultDepths_one_enqueued (c : String) (dc : Int) (p : String) :
    resultDepths [Ev.enqueued c dc p] = [] := rfl

@[simp] theorem enqueuedUrls_nil : enqueuedUrls [] = [] := rfl

@[simp] theorem enqueuedUrls_one_result (u : String) (d : Int) (r : ScrapeResult) :
    enqueuedUrls [Ev.result u d r] = [] := rfl

@[simp] theorem enqueuedUrls_one_discarded (u : String) (d : Int) :
    enqueuedUrls [Ev.discarded u d] = [] := rfl

@[simp] theorem enqueuedUrls_one_linkstep (u : String) (d : Int) :
    enqueuedUrls [Ev.linkstep u d] = [] := rfl

@[simp] theorem enqueuedUrls_one_enqueued (c : String) (dc : Int) (p : String) :
    enqueuedUrls [Ev.enqueued c dc p] = [c] := rfl

/-- Appending a non-`enqueued` event preserves the enqueue-split property. -/
theorem spl_extend {tr : List Ev} {e : Ev}
    (he : ∀ c dc p, e ≠ Ev.enqueued c dc p)
    (h : ∀ t1 c dc p t2, tr = t1 ++ Ev.enqueued c dc p :: t2 →
      (∃ r, Ev.result p (dc - 1) r ∈ t1) ∧ ∀ d' r', Ev.result c d' r' ∉ t1) :
    ∀ t1 c dc p t2, tr ++ [e] = t1 ++ Ev.enqueued c dc p :: t2 →
      (∃ r, Ev.result p (dc - 1) r ∈ t1) ∧ ∀ d' r', Ev.result c d' r' ∉ t1 := by
  intro t1 c dc p t2 heq
  rcases append_singleton_cases heq with ⟨rfl, hx, rfl⟩ | ⟨t2', heq', rfl⟩
  · exact absurd hx.symm (he c dc p)
  · exact h t1 c dc p t2' heq'

theorem CrawlInv.discard {s : String} {co : CrawlerOptions} {u : String} {d : Int}
    {rest : List (String × Int)} {v : List String} {rs : List ScrapeResult}
    {tr : List Ev} (h : CrawlInv s co ⟨(u, d) :: rest, v, rs, tr⟩)
    (hgt : d > co.max_depth) :
    CrawlInv s co ⟨rest, v, rs, tr ++ [Ev.discarded u d]⟩ := by
  obtain ⟨qv, rv, vis, nodup, spl, sorted, close, resOk, disOk, lsOk, enqOk, qd,
    budget, resTr⟩ := h
  constructor
  · exact fun p hp => qv p (List.mem_cons_of_mem _ hp)
  · intro u' d' r' hm
    rcases List.mem_append.1 hm with hm | hm
    · exact rv u' d' r' hm
    · simp at hm
  · simpa [enqueuedUrls_append] using vis
  · exact nodup
  · exact spl_extend (by intro c dc p hc; cases hc) spl
  · simpa [deqDepths_append] using sorted
  · exact fun a ha b hb => close a (List.mem_cons_of_mem _ ha) b (List.mem_cons_of_mem _ hb)
  · intro u' d' r' hm
    rcases List.mem_append.1 hm with hm | hm
    · exact resOk u' d' r' hm
    · simp at hm
  · intro u' d' hm
    rcases List.mem_append.1 hm with hm | hm
    · exact disOk u' d' hm
    · simp at hm
      omega
  · intro u' d' hm
    rcases List.mem_append.1 hm with hm | hm
    · exact lsOk u' d' hm
    · simp at hm
  · intro c dc p hm
    rcases List.mem_append.1 hm with hm | hm
    · exact enqOk c dc p hm
    · simp at hm
  · exact fun p hp => qd p (List.mem_cons_of_mem _ hp)
  · exact budget
  · simpa [resultsOfTrace_append] using resTr

theorem CrawlInv.after_result {s : String} {co : CrawlerOptions} {u : String}
    {d : Int} {rest : List (String × Int)} {v : List String}
    {rs : List ScrapeResult} {tr : List Ev}
    (h : CrawlInv s co ⟨(u, d) :: rest, v, rs, tr⟩)
    (hd : d ≤ co.max_depth) (hlt : (rs.length : Int) < co.max_pages)
    (sr : ScrapeResult) :
    CrawlInv s co ⟨rest, v, rs ++ [sr], tr ++ [Ev.result u d sr]⟩ := by
  obtain ⟨qv, rv, vis, nodup, spl, sorted, close, resOk, disOk, lsOk, enqOk, qd,
    budget, resTr⟩ := h
  have hqu : u ∈ v := qv (u, d) (List.mem_cons_self ..)
  have hqd := qd (u, d) (List.mem_cons_self ..)
  constructor
  · exact fun p hp => qv p (List.mem_cons_of_mem _ hp)
  · intro u' d' r' hm
    rcases List.mem_append.1 hm with hm | hm
    · exact rv u' d' r' hm
    · simp at hm
      exact hm.1 ▸ hqu
  · simpa [enqueuedUrls_append] using vis
  · exact nodup
  · exact spl_extend (by intro c dc p hc; cases hc) spl
  · simpa [deqDepths_append] using sorted
  · exact fun a ha b hb => close a (List.mem_cons_of_mem _ ha) b (List.mem_cons_of_mem _ hb)
  · intro u' d' r' hm
    rcases List.mem_append.1 hm with hm | hm
    · exact resOk u' d' r' hm
    · simp at hm
      obtain ⟨h1, h2, -⟩ := hm
      subst h1; subst h2
      exact ⟨hqd.1, hd, hqd.2⟩
  · intro u' d' hm
    rcases List.mem_append.1 hm with hm | hm
    · exact disOk u' d' hm
    · simp at hm
  · intro u' d' hm
    rcases List.mem_append.1 hm with hm | hm
    · exact lsOk u' d' hm
    · simp at hm
  · intro c dc p hm
    rcases List.mem_append.1 hm with hm | hm
    · exact enqOk c dc p hm
    · simp at hm
  · exact fun p hp => qd p (List.mem_cons_of_mem _ hp)
  · intro h0
    simp only [List.length_append, List.length_cons, List.length_nil]
    push_cast
    omega
  · simp only [resultsOfTrace_append, resultsOfTrace_one_result]
    exact congrArg (fun l => l ++ [sr]) resTr

theorem CrawlInv.after_linkstep {s : String} {co : CrawlerOptions}
    {st : CrawlState} (h : CrawlInv s co st) {u : String} {d : Int}
    (hd0 : 0 ≤ d) (hdlt : d < co.max_depth) :
    CrawlInv s co { st with trace := st.trace ++ [Ev.linkstep u d] } := by
  obtain ⟨qv, rv, vis, nodup, spl, sorted, close, resOk, disOk, lsOk, enqOk, qd,
    budget, resTr⟩ := h
  constructor
  · exact qv
  · intro u' d' r' hm
    rcases List.mem_append.1 hm with hm | hm
    · exact rv u' d' r' hm
    · simp at hm
  · simpa [enqueuedUrls_append] using vis
  · exact nodup
  · exact spl_extend (by intro c dc p hc; cases hc) spl
  · simpa [deqDepths_append] using sorted
  · exact close
  · intro u' d' r' hm
    rcases List.mem_append.1 hm with hm | hm
    · exact resOk u' d' r' hm
    · simp at hm
  · intro u' d' hm
    rcases List.mem_append.1 hm with hm | hm
    · exact disOk u' d' hm
    · simp at hm
  · intro u' d' hm
    rcases List.mem_append.1 hm with hm | hm
    · exact lsOk u' d' hm
    · simp at hm
      obtain ⟨rfl, rfl⟩ := hm
      exact ⟨hd0, hdlt⟩
  · intro c dc p hm
    rcases List.mem_append.1 hm with hm | hm
    · exact enqOk c dc p hm
    · simp at hm
  · exact qd
  · exact budget
  · simpa [resultsOfTrace_append] using resTr

theorem MidInv.step {s : String} {co : CrawlerOptions} (w : World) (bd : String)
    {u : String} {d : Int} (hd0 : 0 ≤ d) (hdlt : d < co.max_depth)
    {link : String} (hlink : urldefrag0 link = link)
    {st : CrawlState} (h : MidInv s co u d st) :
    MidInv s co u d
      (if link ∉ st.visited ∧ is_valid_url w link co bd then
        { st with visited := st.visited ++ [link],
                  queue := st.queue ++ [(link, d + 1)],
                  trace := st.trace ++ [Ev.enqueued link (d + 1) u] }
       else st) := by
  split
  case isFalse => exact h
  case isTrue hc =>
    obtain ⟨⟨qv, rv, vis, nodup, spl, sorted, close, resOk, disOk, lsOk, enqOk,
      qd, budget, resTr⟩, parent, ub, lb⟩ := h
    refine ⟨⟨?_, ?_, ?_, ?_, ?_, ?_, ?_, ?_, ?_, ?_, ?_, ?_, ?_, ?_⟩, ?_, ?_, ?_⟩
    · intro p hp
      rcases List.mem_append.1 hp with hp | hp
      · exact List.mem_append_left _ (qv p hp)
      · simp at hp
        simp [hp]
    · intro u' d' r' hm
      rcases List.mem_append.1 hm with hm | hm
      · exact List.mem_append_left _ (rv u' d' r' hm)
      · simp at hm
    · simp only [enqueuedUrls_append, enqueuedUrls_one_enqueued]
      rw [vis]
      simp
    · simp only [List.nodup_append, List.nodup_cons, List.not_mem_nil,
        List.nodup_nil, List.mem_singleton]
      exact ⟨nodup, by simp, fun a ha hae => hc.1 ((List.mem_singleton.1 hae) ▸ ha)⟩
    · intro t1 c dc p t2 heq
      rcases append_singleton_cases heq with ⟨rfl, hx, rfl⟩ | ⟨t2', heq', rfl⟩
      · obtain ⟨rfl, rfl, rfl⟩ := (by injection hx with h1 h2 h3; exact ⟨h1, h2, h3⟩ :
          c = link ∧ dc = d + 1 ∧ p = u)
        constructor
        · obtain ⟨r, hr⟩ := parent
          exact ⟨r, by rwa [show d + 1 - 1 = d by omega]⟩
        · intro d' r' hmem
          exact hc.1 (rv _ _ _ hmem)
      · exact spl t1 c dc p t2' heq'
    · simp only [deqDepths_append, deqDepths_one_enqueued, List.append_nil,
        List.map_append, List.map_cons, List.map_nil]
      rw [← List.append_assoc]
      refine (List.pairwise_append).2 ⟨by simpa using sorted, by simp, ?_⟩
      intro a ha b hb
      simp at hb
      subst hb
      exact ub a (by simpa using ha)
    · intro a ha b hb
      rcases List.mem_append.1 ha with ha | ha <;> rcases List.mem_append.1 hb with hb | hb
      · exact close a ha b hb
      · simp only [List.mem_singleton] at hb
        subst hb
        have : a.2 ≤ d + 1 := ub a.2 (List.mem_append_right _ (List.mem_map_of_mem _ ha))
        simp only []
        omega
      · simp only [List.mem_singleton] at ha
        subst ha
        have : d ≤ b.2 := lb b.2 (List.mem_map_of_mem _ hb)
        simp only []
        omega
      · simp only [List.mem_singleton] at ha hb
        subst ha; subst hb
        simp
    · intro u' d' r' hm
      rcases List.mem_append.1 hm with hm | hm
      · exact resOk u' d' r' hm
      · simp at hm
    · intro u' d' hm
      rcases List.mem_append.1 hm with hm | hm
      · exact disOk u' d' hm
      · simp at hm
    · intro u' d' hm
      rcases List.mem_append.1 hm with hm | hm
      · exact lsOk u' d' hm
      · simp at hm
    · intro c dc p hm
      rcases List.mem_append.1 hm with hm | hm
      · exact enqOk c dc p hm
      · simp at hm
        obtain ⟨rfl, rfl, rfl⟩ := hm
        exact ⟨by omega, by omega, hlink⟩
    · intro p hp
      rcases List.mem_append.1 hp with hp | hp
      · exact qd p hp
      · simp at hp
        subst hp
        constructor
        · simp; omega
        · simp; omega
    · exact budget
    · simpa [resultsOfTrace_append] using resTr
    · obtain ⟨r, hr⟩ := parent
      exact ⟨r, List.mem_append_left _ hr⟩
    · intro x hx
      simp only [deqDepths_append, deqDepths_one_enqueued, List.append_nil,
        List.map_append, List.map_cons, List.map_nil, List.mem_append] at hx
      rcases hx with hx | hx | hx
      · exact ub x (List.mem_append_left _ hx)
      · exact ub x (List.mem_append_right _ hx)
      · simp at hx
        omega
    · intro x hx
      simp only [List.map_append, List.map_cons, List.map_nil, List.mem_append] at hx
      rcases hx with hx | hx
      · exact lb x hx
      · simp at hx
        omega

theorem enqueue_links_inv (w : World) {s bd u : String} {co : CrawlerOptions}
    {d : Int} (hd0 : 0 ≤ d) (hdlt : d < co.max_depth) :
    ∀ (links : List String), (∀ l ∈ links, urldefrag0 l = l) →
    ∀ {st : CrawlState}, MidInv s co u d st →
    MidInv s co u d (enqueue_links w co bd u d links st) := by
  intro links
  induction links with
  | nil => exact fun _ _ h => h
  | cons a l ih =>
    intro hlinks st h
    have h1 := MidInv.step w bd hd0 hdlt (hlinks a (List.mem_cons_self ..)) h
    have heq : enqueue_links w co bd u d (a :: l) st =
        enqueue_links w co bd u d l
          (if a ∉ st.visited ∧ is_valid_url w a co bd then
            { st with visited := st.visited ++ [a],
                      queue := st.queue ++ [(a, d + 1)],
                      trace := st.trace ++ [Ev.enqueued a (d + 1) u] }
           else st) := by
      simp only [enqueue_links, List.foldl_cons]
    rw [heq]
    exact ih (fun x hx => hlinks x (List.mem_cons_of_mem _ hx)) h1

theorem MidInv.entry {s : String} {co : CrawlerOptions} {u : String} {d : Int}
    {rest : List (String × Int)} {v : List String} {rs : List ScrapeResult}
    {tr : List Ev} (h : CrawlInv s co ⟨(u, d) :: rest, v, rs, tr⟩)
    (hd0 : 0 ≤ d) (hdlt : d < co.max_depth)
    (hlt : (rs.length : Int) < co.max_pages) (sr : ScrapeResult) :
    MidInv s co u d
      ⟨rest, v, rs ++ [sr], (tr ++ [Ev.result u d sr]) ++ [Ev.linkstep u d]⟩ := by
  have hsorted := h.sorted
  have hclose := h.close
  simp only [List.map_cons] at hsorted
  obtain ⟨p1, p2, hcross⟩ := (List.pairwise_append).1 hsorted
  have hC : CrawlInv s co ⟨rest, v, rs ++ [sr], tr ++ [Ev.result u d sr]⟩ :=
    h.after_result (le_of_lt hdlt) hlt sr
  have hC2 := hC.after_linkstep (u := u) (d := d) hd0 hdlt
  refine ⟨hC2, ⟨sr, by simp⟩, ?_, ?_⟩
  · intro x hx
    simp only [deqDepths_append, deqDepths_one_result, deqDepths_one_linkstep,
      List.append_nil, List.mem_append] at hx
    rcases hx with (hx | hx) | hx
    · have : x ≤ d := hcross x hx d (List.mem_cons_self ..)
      omega
    · simp at hx
      omega
    · have : (x, x) = (x, x) := rfl
      obtain ⟨b, hb, hbx⟩ := List.mem_map.1 hx
      have := hclose b (List.mem_cons_of_mem _ hb) (u, d) (List.mem_cons_self ..)
      omega
  · intro x hx
    obtain ⟨b, hb, hbx⟩ := List.mem_map.1 hx
    have := List.pairwise_cons.1 p2
    have := this.1 b.2 (List.mem_map_of_mem _ hb)
    omega

theorem CrawlInv.process {s : String} {co : CrawlerOptions} (w : World)
    (po : ScrapePageOptions) (bd : String) {u : String} {d : Int}
    {rest : List (String × Int)} {v : List String} {rs : List ScrapeResult}
    {tr : List Ev} (h : CrawlInv s co ⟨(u, d) :: rest, v, rs, tr⟩)
    (hd : d ≤ co.max_depth) (hlt : (rs.length : Int) < co.max_pages) :
    CrawlInv s co (process_page w co po bd u d rest v rs tr) := by
  have hd0 : 0 ≤ d := (h.qd (u, d) (List.mem_cons_self ..)).1
  simp only [process_page]
  split
  case isTrue hc =>
    unfold link_step
    split
    · exact (h.after_result hd hlt _).after_linkstep hd0 hc.2
    · exact (enqueue_links_inv w hd0 hc.2 _ (extract_links_defrag w _ u)
        (MidInv.entry h hd0 hc.2 hlt _)).toCrawlInv
  case isFalse => exact h.after_result hd hlt _

theorem crawl_loop_inv (w : World) (co : CrawlerOptions) (po : ScrapePageOptions)
    (bd s : String) :
    ∀ (q : List (String × Int)) (v : List String) (rs : List ScrapeResult)
      (tr : List Ev), CrawlInv s co ⟨q, v, rs, tr⟩ →
      CrawlInv s co (crawl_loop w co po bd q v rs tr) := by
  intro q v rs tr
  induction q, v, rs, tr using crawl_loop.induct w co po bd with
  | case1 v rs tr =>
    intro h
    rw [crawl_loop]
    exact h
  | case2 u d rest v rs tr hlt hgt ih =>
    intro h
    rw [crawl_loop, if_pos hlt, if_pos hgt]
    exact ih (h.discard hgt)
  | case3 u d rest v rs tr hlt hgt st2 ih =>
    intro h
    rw [crawl_loop, if_pos hlt, if_neg hgt]
    exact ih (h.process w po bd (by omega) hlt)
  | case4 u d rest v rs tr hge =>
    intro h
    rw [crawl_loop, if_neg hge]
    exact h

theorem crawl_loop_final (w : World) (co : CrawlerOptions) (po : ScrapePageOptions)
    (bd : String) :
    ∀ (q : List (String × Int)) (v : List String) (rs : List ScrapeResult)
      (tr : List Ev),
      (crawl_loop w co po bd q v rs tr).queue = [] ∨
      co.max_pages ≤ ((crawl_loop w co po bd q v rs tr).results.length : Int) := by
  intro q v rs tr
  induction q, v, rs, tr using crawl_loop.induct w co po bd with
  | case1 v rs tr =>
    rw [crawl_loop]
    exact Or.inl rfl
  | case2 u d rest v rs tr hlt hgt ih =>
    rw [crawl_loop, if_pos hlt, if_pos hgt]
    exact ih
  | case3 u d rest v rs tr hlt hgt st2 ih =>
    rw [crawl_loop, if_pos hlt, if_neg hgt]
    exact ih
  | case4 u d rest v rs tr hge =>
    rw [crawl_loop, if_neg hge]
    exact Or.inr (by simpa using hge)

theorem crawl_run_inv {w : World} {s : String} {co : CrawlerOptions}
    {po : ScrapePageOptions} {st : CrawlState}
    (h : crawl_run w s co po = .ok st) :
    CrawlInv s co st ∧ (st.queue = [] ∨ co.max_pages ≤ (st.results.length : Int)) := by
  unfold crawl_run at h
  split at h
  · exact absurd h (by simp)
  · injection h with h'
    subst h'
    refine ⟨crawl_loop_inv w co po _ s _ _ _ _ (CrawlInv.init s co), ?_⟩
    rcases crawl_loop_final w co po _ [(s, 0)] [s] [] [] with hq | hb
    · exact Or.inl hq
    · exact Or.inr hb

theorem resultDepths_sublist (tr : List Ev) :
    (resultDepths tr).Sublist (deqDepths tr) := by
  induction tr with
  | nil => simp [resultDepths, deqDepths]
  | cons e tr ih =>
    cases e with
    | result u d r =>
      simpa [resultDepths, deqDepths, List.filterMap_cons] using ih.cons₂ d
    | discarded u d =>
      simpa [resultDepths, deqDepths, List.filterMap_cons] using ih.cons d
    | linkstep u d =>
      simpa [resultDepths, deqDepths, List.filterMap_cons] using ih
    | enqueued c dc p =>
      simpa [resultDepths, deqDepths, List.filterMap_cons] using ih

theorem CrawlInv.resultDepths_sorted {s : String} {co : CrawlerOptions}
    {st : CrawlState} (h : CrawlInv s co st) :
    List.Pairwise (· ≤ ·) (resultDepths st.trace) :=
  ((List.pairwise_append.1 h.sorted).1).sublist (resultDepths_sublist st.trace)

theorem scrape_url_fetch_error {w : World} {u : String} (po : ScrapePageOptions)
    {e : String} (h : w.fetch u = .error e) :
    scrape_url w u po =
      ⟨u, "error", none, [], none, some e⟩ := by
  unfold scrape_url
  rw [h]

theorem scrape_url_cases (w : World) (u : String) (po : ScrapePageOptions) :
    (scrape_url w u po).url = u ∧
    (((scrape_url w u po).status = "success" ∧ (scrape_url w u po).error = none ∧
        (scrape_url w u po).ai_analysis.isSome = true) ∨
     ((scrape_url w u po).status = "error" ∧ (scrape_url w u po).ai_analysis = none ∧
        (scrape_url w u po).error.isSome = true)) := by
  unfold scrape_url
  cases hf : w.fetch u with
  | error e => simp
  | ok html =>
    cases hm : html_to_markdown w html with
    | error e => simp [hm]
    | ok md =>
      cases hmd : w.extract_metadata html with
      | error e => simp [hm, hmd]
      | ok meta =>
        by_cases hai : po.ai_analysis
        · cases hp : format_ai_prompt w po md with
          | error e => simp [hm, hmd, hai, hp]
          | ok pr => simp [hm, hmd, hai, hp]
        · simp [hm, hmd, hai]

theorem scrape_url_success_ai (w : World) (u : String) (po : ScrapePageOptions)
    (hkey : w.openai_api_key = none) :
    (scrape_url w u po).status = "success" →
    (scrape_url w u po).ai_analysis = some (AISummary.none_, "N/A") := by
  unfold scrape_url
  cases hf : w.fetch u with
  | error e => simp
  | ok html =>
    cases hm : html_to_markdown w html with
    | error e => simp [hm]
    | ok md =>
      cases hmd : w.extract_metadata html with
      | error e => simp [hm, hmd]
      | ok meta =>
        by_cases hai : po.ai_analysis
        · cases hp : format_ai_prompt w po md with
          | error e => simp [hm, hmd, hai, hp]
          | ok pr => simp [hm, hmd, hai, hp, perform_ai_analysis, hkey]
        · simp [hm, hmd, hai]

theorem scrape_url_noai (w : World) (u : String) (po : ScrapePageOptions)
    (hai : po.ai_analysis = false) :
    (scrape_url w u po).status = "success" →
    (scrape_url w u po).ai_analysis = some (AISummary.none_, "N/A") := by
  unfold scrape_url
  cases hf : w.fetch u with
  | error e => simp
  | ok html =>
    cases hm : html_to_markdown w html with
    | error e => simp [hm]
    | ok md =>
      cases hmd : w.extract_metadata html with
      | error e => simp [hm, hmd]
      | ok meta => simp [hm, hmd, hai]

-- ---------- Provenance of results ----------

theorem enqueue_links_result_mem (w : World) (co : CrawlerOptions) (bd u' : String)
    (d' : Int) : ∀ (links : List String) (st : CrawlState) (u : String) (d : Int)
    (r : ScrapeResult),
    Ev.result u d r ∈ (enqueue_links w co bd u' d' links st).trace →
    Ev.result u d r ∈ st.trace := by
  intro links
  induction links with
  | nil => exact fun st u d r h => h
  | cons a l ih =>
    intro st u d r h
    simp only [enqueue_links, List.foldl_cons] at h
    have h' := ih _ u d r (by simpa [enqueue_links] using h)
    split at h'
    · rcases List.mem_append.1 h' with h'' | h''
      · exact h''
      · simp at h''
    · exact h'

theorem process_page_result_mem (w : World) (co : CrawlerOptions)
    (po : ScrapePageOptions) (bd u : String) (d : Int) (rest : List (String × Int))
    (v : List String) (rs : List ScrapeResult) (tr : List Ev) (u' : String) (d' : Int)
    (r' : ScrapeResult)
    (h : Ev.result u' d' r' ∈ (process_page w co po bd u d rest v rs tr).trace) :
    Ev.result u' d' r' ∈ tr ∨ (u' = u ∧ d' = d ∧ r' = scrape_url w u po) := by
  simp only [process_page] at h
  split at h
  · unfold link_step at h
    split at h
    · rcases List.mem_append.1 h with h' | h'
      · rcases List.mem_append.1 h' with h'' | h''
        · exact Or.inl h''
        · simp at h''
          exact Or.inr h''
      · simp at h'
    · have h' := enqueue_links_result_mem w co bd u d _ _ u' d' r' h
      rcases List.mem_append.1 h' with h'' | h''
      · rcases List.mem_append.1 h'' with h3 | h3
        · exact Or.inl h3
        · simp at h3
          exact Or.inr h3
      · simp at h''
  · rcases List.mem_append.1 h with h' | h'
    · exact Or.inl h'
    · simp at h'
      exact Or.inr h'

theorem crawl_loop_src (w : World) (co : CrawlerOptions) (po : ScrapePageOptions)
    (bd : String) :
    ∀ (q : List (String × Int)) (v : List String) (rs : List ScrapeResult)
      (tr : List Ev),
    (∀ u d r, Ev.result u d r ∈ tr → r = scrape_url w u po) →
    ∀ u d r, Ev.result u d r ∈ (crawl_loop w co po bd q v rs tr).trace →
      r = scrape_url w u po := by
  intro q v rs tr
  induction q, v, rs, tr using crawl_loop.induct w co po bd with
  | case1 v rs tr =>
    intro h
    rw [crawl_loop]
    exact h
  | case2 u d rest v rs tr hlt hgt ih =>
    intro h
    rw [crawl_loop, if_pos hlt, if_pos hgt]
    refine ih ?_
    intro u' d' r' hm
    rcases List.mem_append.1 hm with hm | hm
    · exact h u' d' r' hm
    · simp at hm
  | case3 u d rest v rs tr hlt hgt st2 ih =>
    intro h
    rw [crawl_loop, if_pos hlt, if_neg hgt]
    refine ih ?_
    intro u' d' r' hm
    rcases process_page_result_mem w co po bd u d rest v rs tr u' d' r' hm with hm' | hm'
    · exact h u' d' r' hm'
    · obtain ⟨rfl, rfl, rfl⟩ := hm'
      rfl
  | case4 u d rest v rs tr hge =>
    intro h
    rw [crawl_loop, if_neg hge]
    exact h

theorem mem_resultsOfTrace {r : ScrapeResult} {tr : List Ev}
    (h : r ∈ resultsOfTrace tr) : ∃ u d, Ev.result u d r ∈ tr := by
  unfold resultsOfTrace at h
  obtain ⟨e, he, hre⟩ := List.mem_filterMap.1 h
  cases e with
  | result u d r' =>
    simp only [Option.some.injEq] at hre
    exact ⟨u, d, hre ▸ he⟩
  | discarded u d => simp at hre
  | linkstep u d => simp at hre
  | enqueued c dc p => simp at hre

theorem crawl_run_results_src {w : World} {s : String} {co : CrawlerOptions}
    {po : ScrapePageOptions} {st : CrawlState}
    (h : crawl_run w s co po = .ok st) :
    ∀ r ∈ st.results, ∃ u, r = scrape_url w u po := by
  intro r hr
  obtain ⟨hinv, -⟩ := crawl_run_inv h
  rw [hinv.resTr] at hr
  obtain ⟨u, d, hm⟩ := mem_resultsOfTrace hr
  unfold crawl_run at h
  split at h
  · exact absurd h (by simp)
  case h_2 pu heq =>
    injection h with h'
    refine ⟨u, crawl_loop_src w co po pu.netloc [(s, 0)] [s] [] [] (by simp) u d r ?_⟩
    rw [h']
    exact hm

theorem pyslice_idem (s : String) (n : Nat) : pyslice (pyslice s n) n = pyslice s n := by
  simp [pyslice, List.take_take]

theorem link_step_fetch2_error {w : World} {co : CrawlerOptions} {bd u : String}
    {d : Int} {st : CrawlState} {e : String} (h : w.fetch2 u = .error e) :
    link_step w co bd u d st = st := by
  unfold link_step
  rw [h]

theorem mem_enqueuedUrls {c : String} {tr : List Ev} (h : c ∈ enqueuedUrls tr) :
    ∃ dc p, Ev.enqueued c dc p ∈ tr := by
  unfold enqueuedUrls at h
  obtain ⟨e, he, hce⟩ := List.mem_filterMap.1 h
  cases e with
  | result u d r => simp at hce
  | discarded u d => simp at hce
  | linkstep u d => simp at hce
  | enqueued c' dc p =>
    simp only [Option.some.injEq] at hce
    exact ⟨dc, p, hce ▸ he⟩

-- ---------- Claim theorems ----------

/-- C10: `pct_change` returns `None` exactly when `prev = 0`, and
`pct_change_safe` returns `None` exactly when `prev` is `None` or `0`; in
all other cases both return `(curr - prev) / prev * 100` rounded to two
decimal places (numbers modelled as exact rationals, rounding as Python's
banker's rounding), so neither function ever divides by zero. -/
theorem pct_change_spec (curr prev : ℚ) (prevOpt : Option ℚ) :
    (pct_change curr prev = none ↔ prev = 0) ∧
    (prev ≠ 0 → pct_change curr prev = some (pyround2 ((curr - prev) / prev * 100))) ∧
    (pct_change_safe curr prevOpt = none ↔ prevOpt = none ∨ prevOpt = some 0) ∧
    (∀ p, prevOpt = some p → p ≠ 0 →
      pct_change_safe curr prevOpt = some (pyround2 ((curr - p) / p * 100))) := by
  refine ⟨?_, ?_, ?_, ?_⟩
  · unfold pct_change
    split
    · simp [*]
    · simp [*]
  · intro h
    unfold pct_change
    rw [if_neg h]
  · unfold pct_change_safe
    cases prevOpt with
    | none => simp
    | some p =>
      by_cases hp : p = 0
      · simp [hp]
      · simp [hp]
  · intro p hp hne
    subst hp
    unfold pct_change_safe
    simp [hne]

/-- C10 witness: `pct_change 3 2 = some 50` and
`pct_change_safe 3 none = none`. -/
theorem pct_change_spec_witness :
    (2 : ℚ) ≠ 0 ∧ pct_change 3 2 = some 50 ∧ pct_change_safe 3 none = none := by
  have h2 : (2 : ℚ) ≠ 0 := by norm_num
  have h := (pct_change_spec 3 2 none).2.1 h2
  have hr : pyround2 (((3 : ℚ) - 2) / 2 * 100) = 50 := by
    norm_num [pyround2, roundHalfEven]
  exact ⟨h2, by rw [h, hr], (pct_change_spec 3 2 none).2.2.1.mpr (Or.inl rfl)⟩

theorem is_valid_url_ok {w : World} {url : String} {o : CrawlerOptions} {bd : String}
    {pu : ParsedURL} (hp : w.urlparse url = .ok pu) :
    is_valid_url w url o bd =
      (if ¬(pu.scheme = "http" ∨ pu.scheme = "https") then false
       else if o.same_domain_only = true ∧ pu.netloc ≠ bd then false
       else if o.exclude_patterns ≠ [] ∧
           (o.exclude_patterns.any fun p => w.regex_search_i p url) = true then false
       else if (match o.include_patterns with
                | none => false
                | some ps => !ps.isEmpty &&
                    !(ps.any fun p => w.regex_search_i p url)) = true then false
       else true) := by
  unfold is_valid_url
  rw [hp]

/-- C4: `is_valid_url` accepts exactly when the scheme is http or https,
the host equals `base_domain` whenever `same_domain_only` is set, no
exclude pattern matches, and some include pattern matches whenever include
patterns are present and non-empty; a parse exception rejects, and a URL
matching both an include and an exclude pattern is rejected. -/
theorem is_valid_url_spec (w : World) (url : String) (o : CrawlerOptions)
    (bd : String) :
    (is_valid_url w url o bd = true ↔
      ∃ pu, w.urlparse url = .ok pu ∧
        (pu.scheme = "http" ∨ pu.scheme = "https") ∧
        (o.same_domain_only = true → pu.netloc = bd) ∧
        (∀ pat ∈ o.exclude_patterns, w.regex_search_i pat url = false) ∧
        (∀ ps, o.include_patterns = some ps → ps ≠ [] →
          ∃ pat ∈ ps, w.regex_search_i pat url = true)) ∧
    (∀ e, w.urlparse url = .error e → is_valid_url w url o bd = false) ∧
    (∀ ps pat1 pat2, o.include_patterns = some ps → pat1 ∈ ps →
      pat2 ∈ o.exclude_patterns → w.regex_search_i pat1 url = true →
      w.regex_search_i pat2 url = true → is_valid_url w url o bd = false) := by
  have hiff : is_valid_url w url o bd = true ↔
      ∃ pu, w.urlparse url = .ok pu ∧
        (pu.scheme = "http" ∨ pu.scheme = "https") ∧
        (o.same_domain_only = true → pu.netloc = bd) ∧
        (∀ pat ∈ o.exclude_patterns, w.regex_search_i pat url = false) ∧
        (∀ ps, o.include_patterns = some ps → ps ≠ [] →
          ∃ pat ∈ ps, w.regex_search_i pat url = true) := by
    cases hp : w.urlparse url with
    | error e =>
      unfold is_valid_url
      rw [hp]
      simp
    | ok pu =>
      rw [is_valid_url_ok hp]
      constructor
      · intro h
        by_cases h1 : ¬(pu.scheme = "http" ∨ pu.scheme = "https")
        · rw [if_pos h1] at h; exact absurd h (by simp)
        rw [if_neg h1] at h
        by_cases h2 : o.same_domain_only = true ∧ pu.netloc ≠ bd
        · rw [if_pos h2] at h; exact absurd h (by simp)
        rw [if_neg h2] at h
        by_cases h3 : o.exclude_patterns ≠ [] ∧
            (o.exclude_patterns.any fun p => w.regex_search_i p url) = true
        · rw [if_pos h3] at h; exact absurd h (by simp)
        rw [if_neg h3] at h
        by_cases h4 : (match o.include_patterns with
            | none => false
            | some ps => !ps.isEmpty &&
                !(ps.any fun p => w.regex_search_i p url)) = true
        · rw [if_pos h4] at h; exact absurd h (by simp)
        refine ⟨pu, rfl, not_not.1 h1, ?_, ?_, ?_⟩
        · intro hsd
          by_contra hne
          exact h2 ⟨hsd, hne⟩
        · intro pat hpat
          by_contra hmat
          refine h3 ⟨by rintro hnil; rw [hnil] at hpat; simp at hpat, ?_⟩
          simp only [Bool.not_eq_false] at hmat
          exact List.any_eq_true.2 ⟨pat, hpat, hmat⟩
        · intro ps hps hne
          rw [hps] at h4
          simp only [Bool.and_eq_true, not_and] at h4
          by_cases hemp : ps.isEmpty
          · exact absurd (by simpa [List.isEmpty_iff] using hemp) hne
          · have h5 := h4 (by simp [hemp])
            simp only [Bool.not_eq_true', Bool.not_eq_false] at h5
            exact List.any_eq_true.1 h5
      · rintro ⟨pu', hpu, hs, hd, hex, hinc⟩
        injection hpu with hpu'
        subst hpu'
        rw [if_neg (not_not.2 hs)]
        rw [if_neg (by rintro ⟨hsd, hne⟩; exact hne (hd hsd))]
        rw [if_neg ?hexc]
        case hexc =>
          rintro ⟨-, hany⟩
          obtain ⟨pat, hpat, hmat⟩ := List.any_eq_true.1 hany
          rw [hex pat hpat] at hmat
          cases hmat
        rw [if_neg ?hincl]
        case hincl =>
          intro hmc
          rcases hoi : o.include_patterns with - | ps
          · rw [hoi] at hmc
            simp at hmc
          · rw [hoi] at hmc
            simp only [Bool.and_eq_true, Bool.not_eq_true'] at hmc
            obtain ⟨hne', hnany⟩ := hmc
            obtain ⟨pat, hpat, hmat⟩ := hinc ps hoi
              (by simpa [List.isEmpty_iff] using hne')
            exact (List.any_eq_false.1 hnany pat hpat) hmat
  refine ⟨hiff, ?_, ?_⟩
  · intro e he
    unfold is_valid_url
    rw [he]
  · intro ps pat1 pat2 hps h1 h2 hm1 hm2
    cases hval : is_valid_url w url o bd
    · rfl
    · obtain ⟨pu, -, -, -, hex, -⟩ := hiff.1 hval
      rw [hex pat2 h2] at hm2
      cases hm2

/-- C4 witness: with the parser of `W0` and default options, an http URL
on the base domain is accepted. -/
theorem is_valid_url_spec_witness :
    is_valid_url W0 "http://a.com/x" co0 "a.com" = true :=
  (is_valid_url_spec W0 "http://a.com/x" co0 "a.com").1.mpr
    ⟨⟨"http", "a.com"⟩, rfl, Or.inl rfl, fun _ => rfl, by simp [co0, W0],
     by simp [co0, W0]⟩

theorem resilient_one {oracle : Nat → Attempt} (h0 : retryable (oracle 0) = false) :
    make_resilient_request oracle = ⟨surface (oracle 0), 1, []⟩ := by
  simp [make_resilient_request, resilient_go, h0]

theorem resilient_two {oracle : Nat → Attempt} (h0 : retryable (oracle 0) = true)
    (h1 : retryable (oracle 1) = false) :
    make_resilient_request oracle = ⟨surface (oracle 1), 2, [1]⟩ := by
  simp [make_resilient_request, resilient_go, h0, h1]

theorem resilient_three {oracle : Nat → Attempt} (h0 : retryable (oracle 0) = true)
    (h1 : retryable (oracle 1) = true) :
    make_resilient_request oracle = ⟨surface (oracle 2), 3, [1, 2]⟩ := by
  simp [make_resilient_request, resilient_go, h0, h1]

/-- C8 (spec-modelled): `make_resilient_request` makes at most 3 HTTP
attempts; an attempt is followed by another exactly when it was retryable
(connection failure or status 429/500/502/503/504); the sleeps between
attempts are 1s then 2s (`backoff_factor * 2^(k-1)`); the outcome is the
surfacing of the last attempt, where a non-2xx response becomes a failure
carrying the HTTP status and text and a connection failure carries its
message. -/
theorem make_resilient_request_spec (oracle : Nat → Attempt) :
    1 ≤ (make_resilient_request oracle).attempts ∧
    (make_resilient_request oracle).attempts ≤ 3 ∧
    (make_resilient_request oracle).delays =
      (List.range ((make_resilient_request oracle).attempts - 1)).map (fun k => 2 ^ k) ∧
    (∀ j, j + 1 < (make_resilient_request oracle).attempts →
      retryable (oracle j) = true) ∧
    ((make_resilient_request oracle).attempts < 3 →
      retryable (oracle ((make_resilient_request oracle).attempts - 1)) = false) ∧
    (make_resilient_request oracle).result =
      surface (oracle ((make_resilient_request oracle).attempts - 1)) ∧
    (∀ s t, ¬(200 ≤ s ∧ s < 300) → surface (Attempt.response s t) =
      .error ("HTTP " ++ toString s ++ ": " ++ t)) ∧
    (∀ m, surface (Attempt.connError m) = .error m) ∧
    (∀ s t, 200 ≤ s ∧ s < 300 → surface (Attempt.response s t) = .ok (s, t)) := by
  have hsf1 : ∀ s t, ¬(200 ≤ s ∧ s < 300) → surface (Attempt.response s t) =
      .error ("HTTP " ++ toString s ++ ": " ++ t) := by
    intro s t hn
    simp [surface, raise_for_status, hn]
  have hsf2 : ∀ m, surface (Attempt.connError m) = .error m := fun m => rfl
  have hsf3 : ∀ s t, 200 ≤ s ∧ s < 300 → surface (Attempt.response s t) =
      .ok (s, t) := by
    intro s t hy
    simp [surface, raise_for_status, hy]
  cases hr0 : retryable (oracle 0) with
  | false =>
    rw [resilient_one hr0]
    dsimp only
    refine ⟨by norm_num, by norm_num, by norm_num, ?_, fun _ => hr0, rfl, hsf1,
      hsf2, hsf3⟩
    intro j hj
    exact absurd hj (by omega)
  | true =>
    cases hr1 : retryable (oracle 1) with
    | false =>
      rw [resilient_two hr0 hr1]
      dsimp only
      refine ⟨by norm_num, by norm_num, by norm_num [List.range_succ], ?_,
        fun _ => hr1, rfl, hsf1, hsf2, hsf3⟩
      intro j hj
      have : j = 0 := by omega
      subst this
      exact hr0
    | true =>
      rw [resilient_three hr0 hr1]
      dsimp only
      refine ⟨by norm_num, by norm_num, by norm_num [List.range_succ], ?_,
        by intro h3; exact absurd h3 (by omega), rfl, hsf1, hsf2, hsf3⟩
      intro j hj
      have : j = 0 ∨ j = 1 := by omega
      rcases this with rfl | rfl
      · exact hr0
      · exact hr1

/-- C8 witness: one retryable 500 then a 200: two attempts, one 1s sleep,
success carrying the response. -/
theorem make_resilient_request_spec_witness :
    make_resilient_request OR1 = ⟨.ok (200, "OK"), 2, [1]⟩ ∧
    (make_resilient_request OR1).attempts ≤ 3 ∧
    (∀ j, j + 1 < (make_resilient_request OR1).attempts →
      retryable (OR1 j) = true) := by
  refine ⟨?_, (make_resilient_request_spec OR1).2.1,
    (make_resilient_request_spec OR1).2.2.2.1⟩
  simp [make_resilient_request, resilient_go, OR1, retryable, retryable_statuses,
    surface, raise_for_status]

-- ---------- Concrete runs ----------

theorem W0_run : crawl_run W0 "http://a.com/" co0 po0 = .ok ST0 := by
  simp [crawl_run, crawl_loop, process_page, link_step, enqueue_links, extract_links,
    scrape_url, html_to_markdown, format_ai_prompt, perform_ai_analysis, is_valid_url,
    setList, pyslice, W0, co0, po0, SR0, ST0]

theorem W0_runAI : crawl_run W0 "http://a.com/" co0 poAI = .ok ST0 := by
  simp [crawl_run, crawl_loop, process_page, link_step, enqueue_links, extract_links,
    scrape_url, html_to_markdown, format_ai_prompt, perform_ai_analysis, is_valid_url,
    setList, pyslice, W0, co0, poAI, SR0, ST0]

theorem W2_run : crawl_run W2 "http://a.com/p#f" co0 po0 = .ok ST2 := by
  have h1 : pystrip "http://a.com/p#g" = "http://a.com/p#g" := by decide
  have h2 : urldefrag0 "http://a.com/p#g" = "http://a.com/p" := by decide
  simp [crawl_run, crawl_loop, process_page, link_step, enqueue_links, extract_links,
    scrape_url, html_to_markdown, format_ai_prompt, perform_ai_analysis, is_valid_url,
    setList, pyslice, W2, W0, co0, po0, SR2a, SR2b, ST2, h1, h2]

theorem W7_run : crawl_run W7 "http://a.com/" co0 po0 = .ok ST7 := by
  simp [crawl_run, crawl_loop, process_page, link_step, enqueue_links, extract_links,
    scrape_url, html_to_markdown, format_ai_prompt, perform_ai_analysis, is_valid_url,
    setList, pyslice, W7, W0, co0, po0, SR7, ST7]

theorem W7_runD0 : crawl_run W7 "http://a.com/" coD0 po0 = .ok ST7d := by
  simp [crawl_run, crawl_loop, process_page, link_step, enqueue_links, extract_links,
    scrape_url, html_to_markdown, format_ai_prompt, perform_ai_analysis, is_valid_url,
    setList, pyslice, W7, W0, coD0, po0, SR7, ST7d]

/-- C1: the crawl report's `total_pages_crawled` equals the length of its
results sequence and is at most `max_pages`; the results are exactly the
result events of the trace (one per in-depth dequeued page, success and
error alike); when the loop stops with a non-empty frontier the budget is
met exactly. -/
theorem crawl_budget_spec (w : World) (s : String) (co : CrawlerOptions)
    (po : ScrapePageOptions) (st : CrawlState)
    (hmp : 1 ≤ co.max_pages) (hrun : crawl_run w s co po = .ok st) :
    crawl_website w s co po =
      .ok ⟨"completed", s, st.results.length, st.results⟩ ∧
    ((st.results.length : Int) ≤ co.max_pages) ∧
    (st.queue ≠ [] → (st.results.length : Int) = co.max_pages) ∧
    st.results = resultsOfTrace st.trace := by
  obtain ⟨hinv, hfin⟩ := crawl_run_inv hrun
  refine ⟨?_, ?_, ?_, hinv.resTr⟩
  · unfold crawl_website
    rw [hrun]
    rfl
  · exact hinv.budget (by omega)
  · intro hq
    rcases hfin with h | h
    · exact absurd h hq
    · have := hinv.budget (by omega)
      omega

/-- C1 witness at the failing-fetch world: one page crawled. -/
theorem crawl_budget_spec_witness :
    (1 : Int) ≤ co0.max_pages ∧ crawl_run W0 "http://a.com/" co0 po0 = .ok ST0 ∧
    (crawl_website W0 "http://a.com/" co0 po0 =
        .ok ⟨"completed", "http://a.com/", ST0.results.length, ST0.results⟩ ∧
     ((ST0.results.length : Int) ≤ co0.max_pages) ∧
     (ST0.queue ≠ [] → (ST0.results.length : Int) = co0.max_pages) ∧
     ST0.results = resultsOfTrace ST0.trace) := by
  have hmp : (1 : Int) ≤ co0.max_pages := by norm_num [co0]
  exact ⟨hmp, W0_run, crawl_budget_spec W0 "http://a.com/" co0 po0 ST0 hmp W0_run⟩

/-- C2 counterexample: the seed URL is inserted into the visited set
verbatim, without fragment stripping; with seed `http://a.com/p#f` and a
page linking to `http://a.com/p#g`, the common normalized URL
`http://a.com/p` is admitted to the visited set and frontier twice. -/
theorem seed_fragment_double_schedule :
    crawl_run W2 "http://a.com/p#f" co0 po0 = .ok ST2 ∧
    urldefrag0 "http://a.com/p#f" = urldefrag0 "http://a.com/p" ∧
    "http://a.com/p#f" ≠ "http://a.com/p" ∧
    ST2.visited = ["http://a.com/p#f", "http://a.com/p"] ∧
    ¬ (ST2.visited.map urldefrag0).Nodup :=
  ⟨W2_run, by decide, by decide, rfl, by decide⟩

/-- C2 corrected: every discovered link is fragment-stripped before the
visited-set test and each URL string is admitted to the visited set and
frontier at most once (the visited set is exactly the seed followed by the
enqueued links, without duplicates); the seed itself, however, is inserted
verbatim, with no normalization applied. -/
theorem crawl_dedup_amended (w : World) (s : String) (co : CrawlerOptions)
    (po : ScrapePageOptions) (st : CrawlState)
    (hrun : crawl_run w s co po = .ok st) :
    st.visited = s :: enqueuedUrls st.trace ∧
    st.visited.Nodup ∧
    (∀ c ∈ enqueuedUrls st.trace, urldefrag0 c = c) ∧
    (∀ p ∈ st.queue, p.1 ∈ st.visited) := by
  obtain ⟨hinv, -⟩ := crawl_run_inv hrun
  refine ⟨hinv.vis, hinv.nodup, ?_, hinv.qv⟩
  intro c hc
  obtain ⟨dc, p, hm⟩ := mem_enqueuedUrls hc
  exact (hinv.enqOk c dc p hm).2.2

/-- C2 witness for the corrected statement, on the fragment-seed run. -/
theorem crawl_dedup_amended_witness :
    crawl_run W2 "http://a.com/p#f" co0 po0 = .ok ST2 ∧
    (ST2.visited = "http://a.com/p#f" :: enqueuedUrls ST2.trace ∧
     ST2.visited.Nodup ∧
     (∀ c ∈ enqueuedUrls ST2.trace, urldefrag0 c = c) ∧
     (∀ p ∈ ST2.queue, p.1 ∈ ST2.visited)) :=
  ⟨W2_run, crawl_dedup_amended W2 "http://a.com/p#f" co0 po0 ST2 W2_run⟩

/-- C3: every result's originating depth is at most `max_depth`; every
discarded entry's depth exceeds `max_depth` and contributes no result (the
results are exactly the result events); the link step only runs strictly
below `max_depth`; with `max_depth = 0` only the seed is ever fetched and
the link-extraction step never executes. -/
theorem crawl_depth_spec (w : World) (s : String) (co : CrawlerOptions)
    (po : ScrapePageOptions) (st : CrawlState)
    (hrun : crawl_run w s co po = .ok st) :
    (∀ u d r, Ev.result u d r ∈ st.trace → d ≤ co.max_depth) ∧
    (∀ u d, Ev.discarded u d ∈ st.trace → co.max_depth < d) ∧
    st.results = resultsOfTrace st.trace ∧
    (∀ u d, Ev.linkstep u d ∈ st.trace → d < co.max_depth) ∧
    (co.max_depth = 0 →
      (∀ u d r, Ev.result u d r ∈ st.trace → u = s ∧ d = 0) ∧
      (∀ u d, Ev.linkstep u d ∉ st.trace) ∧
      (∀ c dc p, Ev.enqueued c dc p ∉ st.trace)) := by
  obtain ⟨hinv, -⟩ := crawl_run_inv hrun
  refine ⟨fun u d r h => (hinv.resOk u d r h).2.1, hinv.disOk, hinv.resTr,
    fun u d h => (hinv.lsOk u d h).2, ?_⟩
  intro h0
  refine ⟨?_, ?_, ?_⟩
  · intro u d r h
    have hh := hinv.resOk u d r h
    have hd0 : d = 0 := by omega
    exact ⟨hh.2.2 hd0, hd0⟩
  · intro u d h
    have := hinv.lsOk u d h
    omega
  · intro c dc p h
    have := hinv.enqOk c dc p h
    omega

/-- C3 witness at `max_depth = 0`: only the seed is fetched, no link step.
-/
theorem crawl_depth_spec_witness :
    crawl_run W7 "http://a.com/" coD0 po0 = .ok ST7d ∧
    ((∀ u d r, Ev.result u d r ∈ ST7d.trace → d ≤ coD0.max_depth) ∧
     (∀ u d, Ev.discarded u d ∈ ST7d.trace → coD0.max_depth < d) ∧
     ST7d.results = resultsOfTrace ST7d.trace ∧
     (∀ u d, Ev.linkstep u d ∈ ST7d.trace → d < coD0.max_depth) ∧
     (coD0.max_depth = 0 →
       (∀ u d r, Ev.result u d r ∈ ST7d.trace → u = "http://a.com/" ∧ d = 0) ∧
       (∀ u d, Ev.linkstep u d ∉ ST7d.trace) ∧
       (∀ c dc p, Ev.enqueued c dc p ∉ ST7d.trace))) :=
  ⟨W7_runD0, crawl_depth_spec W7 "http://a.com/" coD0 po0 ST7d W7_runD0⟩

/-- C5: no per-page failure escapes the crawl loop: a failing fetch yields
a page-level error result carrying the message; every result is success,
or error with a message; a failing link-extraction fetch leaves the crawl
state unchanged — exactly the effect of zero discovered links — and is not
a page error; the run ends only with an empty frontier or an exhausted
page budget; and the crawl returns a report whenever the seed parses. -/
theorem crawl_error_isolation (w : World) (s u bd : String) (co : CrawlerOptions)
    (po : ScrapePageOptions) (d : Int) (st0 : CrawlState) :
    (∀ e, w.fetch u = .error e →
      scrape_url w u po = ⟨u, "error", none, [], none, some e⟩) ∧
    ((scrape_url w u po).status = "success" ∨
      ((scrape_url w u po).status = "error" ∧
        (scrape_url w u po).error.isSome = true)) ∧
    (∀ e, w.fetch2 u = .error e → link_step w co bd u d st0 = st0) ∧
    enqueue_links w co bd u d [] st0 = st0 ∧
    (∀ st, crawl_run w s co po = .ok st →
      st.queue = [] ∨ co.max_pages ≤ (st.results.length : Int)) ∧
    (∀ pu, w.urlparse s = .ok pu → ∃ st, crawl_run w s co po = .ok st) := by
  refine ⟨fun e he => scrape_url_fetch_error po he, ?_,
    fun e he => link_step_fetch2_error he, rfl, ?_, ?_⟩
  · rcases (scrape_url_cases w u po).2 with ⟨h1, h2, h3⟩ | ⟨h1, h2, h3⟩
    · exact Or.inl h1
    · exact Or.inr ⟨h1, h3⟩
  · exact fun st h => (crawl_run_inv h).2
  · intro pu hpu
    refine ⟨crawl_loop w co po pu.netloc [(s, 0)] [s] [] [], ?_⟩
    unfold crawl_run
    rw [hpu]

/-- C5 witness: in `W0` the seed fetch fails with a connection error; the
page result is an error result and the crawl still returns a report. -/
theorem crawl_error_isolation_witness :
    W0.fetch "http://a.com/" = .error "connection refused" ∧
    scrape_url W0 "http://a.com/" po0 =
      ⟨"http://a.com/", "error", none, [], none, some "connection refused"⟩ ∧
    link_step W0 co0 "a.com" "http://a.com/" 0 ST0 = ST0 ∧
    (∃ st, crawl_run W0 "http://a.com/" co0 po0 = .ok st) := by
  have h := crawl_error_isolation W0 "http://a.com/" "http://a.com/" "a.com" co0 po0
    0 ST0
  exact ⟨rfl, h.1 _ rfl, h.2.2.1 _ rfl, h.2.2.2.2.2 ⟨"http", "a.com"⟩ rfl⟩

/-- C6 counterexample: with enrichment enabled and no credential, a page
whose fetch fails produces a result with no enrichment field at all, so
not every result carries the degraded placeholder. -/
theorem enrichment_placeholder_missing_on_error :
    poAI.ai_analysis = true ∧ W0.openai_api_key = none ∧
    crawl_run W0 "http://a.com/" co0 poAI = .ok ST0 ∧
    ST0.results.map (fun r => r.ai_analysis) = [none] :=
  ⟨rfl, rfl, W0_runAI, rfl⟩

/-- C6 corrected: `perform_ai_analysis` never raises: with no credential
it returns the degraded pair immediately without calling the service; the
submitted content is the fixed 8000-character prefix; a failing call is
converted to the error-describing pair with model "N/A"; and in a crawl
with enrichment enabled and no credential every successfully fetched
page's result carries the degraded placeholder (fetch-error results carry
no enrichment field). -/
theorem perform_ai_analysis_degraded (w : World) (c p : String) :
    (w.openai_api_key = none →
      perform_ai_analysis w c p = (AISummary.none_, "N/A") ∧
      ∀ chatf, perform_ai_analysis { w with chat := chatf } c p =
        (AISummary.none_, "N/A")) ∧
    perform_ai_analysis w c p = perform_ai_analysis w (pyslice c 8000) p ∧
    (∀ e, w.chat (p ++ "\n\n---\n\nCONTENT:\n" ++ pyslice c 8000) = .error e →
      ∀ k, w.openai_api_key = some k →
      perform_ai_analysis w c p =
        (AISummary.err ("AI analysis failed: " ++ e), "N/A")) ∧
    (∀ s co po st, w.openai_api_key = none → crawl_run w s co po = .ok st →
      ∀ r ∈ st.results, r.status = "success" →
        r.ai_analysis = some (AISummary.none_, "N/A")) := by
  refine ⟨?_, ?_, ?_, ?_⟩
  · intro hk
    exact ⟨by simp [perform_ai_analysis, hk],
      fun chatf => by simp [perform_ai_analysis, hk]⟩
  · unfold perform_ai_analysis
    cases w.openai_api_key with
    | none => rfl
    | some k => rw [pyslice_idem]
  · intro e he k hk
    simp [perform_ai_analysis, hk, he]
  · intro s co po st hk hrun r hr hsucc
    obtain ⟨u, hu⟩ := crawl_run_results_src hrun r hr
    subst hu
    exact scrape_url_success_ai w u po hk hsucc

/-- C6 witness: no credential configured — the hook degrades immediately
and a crawl with enrichment enabled still completes. -/
theorem perform_ai_analysis_degraded_witness :
    W0.openai_api_key = none ∧
    perform_ai_analysis W0 "content" "prompt" = (AISummary.none_, "N/A") ∧
    crawl_run W0 "http://a.com/" co0 poAI = .ok ST0 ∧
    (∀ r ∈ ST0.results, r.status = "success" →
      r.ai_analysis = some (AISummary.none_, "N/A")) := by
  have h := perform_ai_analysis_degraded W0 "content" "prompt"
  exact ⟨rfl, (h.1 rfl).1, W0_runAI,
    h.2.2.2 "http://a.com/" co0 poAI ST0 rfl W0_runAI⟩

/-- C7 counterexample: a successful page in a crawl with enrichment not
requested still carries an `ai_analysis` field (the placeholder), so the
enrichment field is not "present iff requested". -/
theorem enrichment_present_without_request :
    po0.ai_analysis = false ∧
    crawl_run W7 "http://a.com/" co0 po0 = .ok ST7 ∧
    ST7.results = [SR7] ∧ SR7.ai_analysis = some (AISummary.none_, "N/A") :=
  ⟨rfl, W7_run, rfl, rfl⟩

/-- C7 corrected: the enrichment field is present iff the page result's
status is success; when enrichment was not requested a success result
still carries the placeholder pair (summary None, model "N/A"); error
results carry no enrichment field. -/
theorem enrichment_iff_success (w : World) (s : String) (co : CrawlerOptions)
    (po : ScrapePageOptions) (st : CrawlState)
    (hrun : crawl_run w s co po = .ok st) :
    ∀ r ∈ st.results,
      (r.ai_analysis.isSome = true ↔ r.status = "success") ∧
      (po.ai_analysis = false → r.status = "success" →
        r.ai_analysis = some (AISummary.none_, "N/A")) := by
  intro r hr
  obtain ⟨u, hu⟩ := crawl_run_results_src hrun r hr
  subst hu
  refine ⟨?_, fun hpo hs => scrape_url_noai w u po hpo hs⟩
  rcases (scrape_url_cases w u po).2 with ⟨h1, h2, h3⟩ | ⟨h1, h2, h3⟩
  · exact ⟨fun _ => h1, fun _ => h3⟩
  · constructor
    · intro hs
      rw [h2] at hs
      simp at hs
    · intro hs
      rw [h1] at hs
      exact absurd hs (by decide)

/-- C7 witness for the corrected statement, on the one-success-page run. -/
theorem enrichment_iff_success_witness :
    crawl_run W7 "http://a.com/" co0 po0 = .ok ST7 ∧
    (∀ r ∈ ST7.results,
      (r.ai_analysis.isSome = true ↔ r.status = "success") ∧
      (po0.ai_analysis = false → r.status = "success" →
        r.ai_analysis = some (AISummary.none_, "N/A"))) :=
  ⟨W7_run, enrichment_iff_success W7 "http://a.com/" co0 po0 ST7 W7_run⟩

/-- C9: results appear in dequeue order of the FIFO frontier, breadth
first relative to the seed: the depths of successive results are
non-decreasing, and whenever a link is enqueued, its parent's result (one
depth lower) already precedes that point of the trace while the link's own
result can only appear later. -/
theorem crawl_bfs_order (w : World) (s : String) (co : CrawlerOptions)
    (po : ScrapePageOptions) (st : CrawlState)
    (hrun : crawl_run w s co po = .ok st) :
    List.Pairwise (· ≤ ·) (resultDepths st.trace) ∧
    (∀ t1 c dc p t2, st.trace = t1 ++ Ev.enqueued c dc p :: t2 →
      (∃ r, Ev.result p (dc - 1) r ∈ t1) ∧ ∀ d' r', Ev.result c d' r' ∉ t1) := by
  obtain ⟨hinv, -⟩ := crawl_run_inv hrun
  exact ⟨hinv.resultDepths_sorted, hinv.spl⟩

/-- C9 witness on the two-page run: depths 0 then 1, and the enqueued link
is preceded by its parent's result. -/
theorem crawl_bfs_order_witness :
    crawl_run W2 "http://a.com/p#f" co0 po0 = .ok ST2 ∧
    List.Pairwise (· ≤ ·) (resultDepths ST2.trace) ∧
    (∀ t1 c dc p t2, ST2.trace = t1 ++ Ev.enqueued c dc p :: t2 →
      (∃ r, Ev.result p (dc - 1) r ∈ t1) ∧ ∀ d' r', Ev.result c d' r' ∉ t1) := by
  have h := crawl_bfs_order W2 "http://a.com/p#f" co0 po0 ST2 W2_run
  exact ⟨W2_run, h.1, h.2⟩
